import Mathlib

/-!
Verification of the win-agent repository's specification claims against a
shallow embedding of its Go source.

Strings are modelled as `List Char` (`Str`); Go operates on UTF-8 bytes, and
all inputs used in concrete theorems are ASCII, where the two views agree
character for character.  Go `float64` values that the metrics code
manipulates are modelled as rationals; `int64` counters are modelled as
integers reduced by the two's-complement wrap `wrap64`.  Filesystem access,
the child process, the message bus and JSON validity are oracles passed as
explicit arguments.

The Windows `path/filepath` functions used by the agent (`Clean`, `Base`,
`Ext`, `Join`) are embedded for the fragment the agent exercises: drive-letter
volumes (`C:`) and relative paths with `\` or `/` separators.  UNC paths
(`\\server\share`) and the reserved-name post-processing of newer Go releases
are outside the modelled fragment; no theorem below touches them.
-/

namespace WinAgent

abbrev Str := List Char

/-- Convert a Lean string literal to the `List Char` model. -/
def str (s : String) : Str := s.data

/-! ## Go `strings` helpers -/

/-- Go `unicode.IsSpace`: the Unicode White_Space property, enumerated by
code point. -/
def goIsSpace (c : Char) : Bool :=
  c = ' ' ∨ c = '\t' ∨ c = '\n' ∨ c.toNat = 0x0b ∨ c.toNat = 0x0c ∨ c = '\r' ∨
  c.toNat = 0x85 ∨ c.toNat = 0xa0 ∨ c.toNat = 0x1680 ∨
  (0x2000 ≤ c.toNat ∧ c.toNat ≤ 0x200a) ∨
  c.toNat = 0x2028 ∨ c.toNat = 0x2029 ∨ c.toNat = 0x202f ∨
  c.toNat = 0x205f ∨ c.toNat = 0x3000

/-- Split a character list at every character satisfying `p`, keeping empty
segments (the splitter itself is dropped). -/
def splitBy (p : Char → Bool) : Str → List Str
  | [] => [[]]
  | c :: rest =>
    if p c then [] :: splitBy p rest
    else
      match splitBy p rest with
      | s :: ss => (c :: s) :: ss
      | [] => [[c]]

/-- Go `strings.Fields`: split on runs of white space, dropping empties. -/
def fields (s : Str) : List Str :=
  (splitBy goIsSpace s).filter (fun l => l ≠ [])

/-- Go `strings.TrimSpace`. -/
def trimSpace (s : Str) : Str :=
  ((s.dropWhile goIsSpace).reverse.dropWhile goIsSpace).reverse

/-- Go `strings.HasPrefix`. -/
def strStartsWith : Str → Str → Bool
  | _, [] => true
  | [], _ :: _ => false
  | c :: s, d :: t => c = d && strStartsWith s t

/-- Source (`exec_scripts.go` / part_006): `normalizeWhitespace` — split on
white space with `strings.Fields` and re-join with single spaces. -/
def normalizeWhitespace (s : Str) : Str :=
  List.intercalate [' '] (fields s)

/-! ## Windows `path/filepath` model -/

/-- Go Windows `os.IsPathSeparator`: backslash or slash. -/
def isPathSep (c : Char) : Bool := c = '\\' ∨ c = '/'

def isDriveLetter (c : Char) : Bool :=
  ('a' ≤ c ∧ c ≤ 'z') ∨ ('A' ≤ c ∧ c ≤ 'Z')

/-- Go Windows `volumeNameLen`, drive-letter case (`C:` gives 2). -/
def volLen : Str → Nat
  | c0 :: c1 :: _ => if c1 = ':' ∧ isDriveLetter c0 then 2 else 0
  | _ => 0

/-- The component-stack core of Go `filepath.Clean`: drop empty and `.`
components; `..` pops a non-`..` entry, is dropped at the root, and is kept
at the head of a relative path.  `stack` holds emitted components in reverse. -/
def cleanStack (rooted : Bool) : List Str → List Str → List Str
  | stack, [] => stack.reverse
  | stack, comp :: rest =>
    if comp = [] ∨ comp = ['.'] then cleanStack rooted stack rest
    else if comp = ['.', '.'] then
      match stack with
      | top :: stack' =>
        if top = ['.', '.'] then cleanStack rooted (comp :: stack) rest
        else cleanStack rooted stack' rest
      | [] =>
        if rooted then cleanStack rooted [] rest
        else cleanStack rooted [comp] rest
    else cleanStack rooted (comp :: stack) rest

/-- Go `filepath.Clean` on the modelled fragment: preserve the drive-letter
volume, resolve `.` and `..` components, join with single backslashes, and
return `.` (after the volume) when nothing remains.  `Clean ""` is `"."`,
and `Clean "C:"` is `"C:."`, as in Go. -/
def Clean (path : Str) : Str :=
  let vl := volLen path
  let vol := path.take vl
  let rest := path.drop vl
  if rest = [] then path ++ ['.']
  else
    let rooted := isPathSep (rest.headD ' ')
    let comps := cleanStack rooted [] (splitBy isPathSep rest)
    let body := List.intercalate ['\\'] comps
    if rooted then vol ++ '\\' :: body
    else vol ++ (if body = [] then ['.'] else body)

/-- Go `filepath.Base`: strip trailing separators, drop the volume, take the
part after the last separator; `"."` for empty input, `"\"` if only
separators remain. -/
def Base (path : Str) : Str :=
  if path = [] then ['.']
  else
    let p1 := (path.reverse.dropWhile isPathSep).reverse
    let p2 := p1.drop (volLen p1)
    let p3 := (p2.reverse.takeWhile (fun c => ¬ isPathSep c)).reverse
    if p3 = [] then ['\\'] else p3

/-- Helper for `Ext`: walk the reversed path, accumulating the suffix until
the first dot; a separator first means no extension. -/
def extRev : Str → Str → Str
  | [], _ => []
  | c :: rest, acc =>
    if isPathSep c then []
    else if c = '.' then '.' :: acc
    else extRev rest (c :: acc)

/-- Go `filepath.Ext`: the suffix from the final dot of the last element. -/
def Ext (path : Str) : Str := extRev path.reverse []

/-- Go Windows `filepath.Join` on two elements (non-UNC fragment): skip empty
elements, add a backslash unless the left part already ends in a separator
or a colon, then `Clean`. -/
def Join2 (a b : Str) : Str :=
  if a = [] ∧ b = [] then []
  else if a = [] then Clean b
  else if b = [] then Clean a
  else
    match a.getLast? with
    | some c => if isPathSep c ∨ c = ':' then Clean (a ++ b) else Clean (a ++ '\\' :: b)
    | none => Clean b

/-! ## Command gate (`exec_scripts.go`, windows build — src/unnamed/part_006) -/

/-- Filesystem oracle for `os.Stat`: `none` is a stat error, `some d` a
successful stat with `d` the is-directory bit. -/
structure FS where
  stat : Str → Option Bool

/-- Source: `isScript` — the base name has extension `.ps1`. -/
def isScript (command : Str) : Bool :=
  Ext (Base command) = str ".ps1"

/-- Source: `isScriptAllowed` — clean the directory, take the base name of the
command, require `.ps1`, join and clean, require the result to stay under the
cleaned directory, and require a stat of a non-directory. -/
def isScriptAllowed (command scriptsDir : Str) (fs : FS) : Bool :=
  let cleanScriptsDir := Clean scriptsDir
  let commandFilename := Base command
  if Ext commandFilename ≠ str ".ps1" then false
  else
    let scriptPath := Join2 cleanScriptsDir commandFilename
    let cleanScriptPath := Clean scriptPath
    if ¬ strStartsWith cleanScriptPath (cleanScriptsDir ++ ['\\']) ∧
        cleanScriptPath ≠ cleanScriptsDir then false
    else
      match fs.stat cleanScriptPath with
      | none => false
      | some isDir => if isDir then false else true

/-- Source: `resolveScriptPath` — a bare file name is joined to the scripts
directory; anything else is returned unchanged (the Go function never
returns an error). -/
def resolveScriptPath (command scriptsDir : Str) : Str :=
  if Base command = command then Join2 scriptsDir command else command

/-- Source: `isCommandAllowed` — whitelist match after whitespace
normalization, else the scripts-directory path when configured. -/
def isCommandAllowed (command : Str) (allowedCommands : List Str)
    (scriptsDir : Str) (fs : FS) : Bool :=
  let normalized := normalizeWhitespace command
  if allowedCommands.any (fun allowed => normalized = normalizeWhitespace allowed) then true
  else if scriptsDir ≠ [] ∧ isScript command then isScriptAllowed command scriptsDir fs
  else false

/-- What the child process does when spawned: exit with captured stdout,
stderr and exit code; fail to start; or exceed the timeout. -/
inductive RunOutcome where
  | exits (stdout stderr : Str) (code : Int)
  | startFailure (msg : Str)
  | timesOut
deriving DecidableEq

/-- Source: `executePowerShell` — combine stdout and stderr (stderr under a
`STDERR:` marker), return the exit code, and an error for non-zero exit,
start failure, or timeout.  `tmo` renders the configured timeout value. -/
def executePowerShell (outcome : RunOutcome) (tmo : Str) : Str × Int × Option Str :=
  match outcome with
  | .exits out errS code =>
    let output := out
    let output :=
      if errS ≠ [] then
        (if output ≠ [] then output ++ str "\n" else output) ++ str "STDERR:\n" ++ errS
      else output
    if code ≠ 0 then
      (output, code, some (str "command exited with code " ++ (toString code).data))
    else (output, code, none)
  | .startFailure m => ([], -1, some (str "failed to execute command: " ++ m))
  | .timesOut => ([], -1, some (str "command execution timeout (" ++ tmo ++ str ")"))

/-- Result of `ExecuteCommand`, with the spawned command string exposed
(`none` when no child process is started). -/
structure ExecResult where
  spawned : Option Str
  output : Str
  exitCode : Int
  err : Option Str
deriving DecidableEq

/-- Source: `ExecuteCommand` — gate through `isCommandAllowed`, resolve the
script path when the command is a script and a directory is configured, and
run the resolved command through PowerShell. -/
def ExecuteCommand (command : Str) (allowedCommands : List Str) (scriptsDir : Str)
    (fs : FS) (outcome : RunOutcome) (tmo : Str) : ExecResult :=
  if ¬ isCommandAllowed command allowedCommands scriptsDir fs then
    ⟨none, [], -1, some (str "command not in allowed list or scripts directory")⟩
  else
    let fullCommand :=
      if scriptsDir ≠ [] ∧ isScript command then resolveScriptPath command scriptsDir
      else command
    let r := executePowerShell outcome tmo
    ⟨some fullCommand, r.1, r.2.1, r.2.2⟩

/-! ## Exec handler (`handlers.go`: `handleCustomExec`) -/

/-- The JSON `output` field of the exec reply: either the raw (already-JSON)
trimmed output, or the output marshalled as a JSON string. -/
inductive OutputData where
  | raw (s : Str)
  | jstr (s : Str)
deriving DecidableEq

/-- The `customExecResponse` wire object; `omitempty` fields are `Option`,
with `none` for the omitted (zero) value. -/
structure CustomExecResponse where
  status : Str
  command : Option Str
  output : Option OutputData
  exitCode : Option Int
  error : Option Str
  timestamp : Str
deriving DecidableEq

/-- Source: `handleCustomExec` — decode (the oracle `req` is the decoded
command, `none` for a malformed request), execute, and reply: on any
execution error a bare status/error/timestamp reply; on success the output
(raw if it parses as JSON by the oracle `isValidJSON`, else as a string)
with `omitempty` dropping the zero exit code. -/
def handleCustomExec (req : Option Str) (allowedCommands : List Str) (scriptsDir : Str)
    (fs : FS) (outcome : RunOutcome) (tmo : Str) (isValidJSON : Str → Bool)
    (ts : Str) : CustomExecResponse :=
  match req with
  | none => ⟨str "error", none, none, none, some (str "Invalid request format"), ts⟩
  | some command =>
    let r := ExecuteCommand command allowedCommands scriptsDir fs outcome tmo
    match r.err with
    | some e => ⟨str "error", none, none, none, some e, ts⟩
    | none =>
      let trimmed := trimSpace r.output
      let outputData :=
        if trimmed ≠ [] ∧ isValidJSON trimmed then OutputData.raw trimmed
        else OutputData.jstr r.output
      ⟨str "success", if command = [] then none else some command, some outputData,
        if r.exitCode = 0 then none else some r.exitCode, none, ts⟩

/-! ## Log tailing (`logs.go` — src/unnamed/part_005) -/

/-- The token produced by Go `bufio.ScanLines` from the reversed accumulator:
drop one carriage return preceding the newline, then restore file order. -/
def scanTok (acc : Str) : Str :=
  (match acc with
   | '\r' :: t => t
   | t => t).reverse

/-- Go `bufio.Scanner` with `ScanLines`, as used by `readAllLines`: tokens
split at newlines, one trailing carriage return stripped per token, a final
non-terminated token included, no token after a terminating newline. -/
def linesGoAux : Str → Str → List Str
  | [], acc => if acc = [] then [] else [scanTok acc]
  | c :: rest, acc =>
    if c = '\n' then scanTok acc :: linesGoAux rest []
    else linesGoAux rest (c :: acc)

def linesGo (content : Str) : List Str := linesGoAux content []

/-- The final `n` elements of a list (all of it when it is shorter). -/
def lastN (n : Nat) (xs : List Str) : List Str := xs.drop (xs.length - n)

/-- Source: `readAllLines` — scan every line, return the last `n`. -/
def readAllLines (content : Str) (n : Nat) : List Str :=
  let lines := linesGo content
  if lines.length ≤ n then lines else lines.drop (lines.length - n)

/-- Source: the backward scan of `readLastNLines`.  The Go loop reads 4 KiB
chunks from EOF and walks each chunk backwards, so the traversal visits the
bytes of the file exactly in reverse order; `rev` is that traversal.  A
newline closes the accumulated line only when non-empty (consecutive
newlines produce nothing), carriage returns are skipped, and the scan stops
as soon as `n` lines are collected.  Each pushed line is built backwards and
reversed at the end in Go; consing while walking the reversed content yields
the same forward-order line here. -/
def collectBack : Str → Nat → Str → List Str → List Str
  | [], _, acc, lines => if acc = [] then lines else acc :: lines
  | c :: rest, n, acc, lines =>
    if c = '\n' then
      if acc = [] then collectBack rest n [] lines
      else
        let lines' := acc :: lines
        if n ≤ lines'.length then lines' else collectBack rest n [] lines'
    else if c = '\r' then collectBack rest n acc lines
    else collectBack rest n (c :: acc) lines

/-- Source: `readLastNLines`.  With `n = 0` the Go outer loop never runs and
the empty builder contributes nothing. -/
def readLastNLines (content : Str) (n : Nat) : List Str :=
  if n = 0 then [] else collectBack content.reverse n [] []

/-- The backward scan without the early stop: every non-empty line. -/
def collectAll : Str → Str → List Str → List Str
  | [], acc, lines => if acc = [] then lines else acc :: lines
  | c :: rest, acc, lines =>
    if c = '\n' then collectAll rest [] (if acc = [] then lines else acc :: lines)
    else if c = '\r' then collectAll rest acc lines
    else collectAll rest (c :: acc) lines

/-- The newline test used to delimit lines. -/
def isNL (c : Char) : Bool := c = '\n'

/-- The carriage-return filter applied by the backward scan. -/
def notCR (c : Char) : Bool := c ≠ '\r'

/-- Specification-side reading of the backward scan: the newline-separated
segments of the content with every carriage return removed, empty segments
dropped (a trailing newline contributes nothing either way). -/
def nonEmptyLines (content : Str) : List Str :=
  (splitBy isNL (content.filter notCR)).filter (fun l => l ≠ [])

/-- A filesystem operation performed while serving a log-fetch request. -/
inductive FsOp where
  | glob (pattern : Str)
  | openFile (path : Str)
deriving DecidableEq

/-- Filesystem oracle for the log path: `globExpand` is `filepath.Glob`
(`none` a pattern error), `readFile` the opened file's content (`none` an
open or stat error). -/
structure LogFS where
  globExpand : Str → Option (List Str)
  readFile : Str → Option Str

/-- Source: the pattern loop of `isPathAllowed`, accumulating the glob
expansions it performs. -/
def isPathAllowedGo : Str → List Str → LogFS → List FsOp → Bool × List FsOp
  | _, [], _, trace => (false, trace)
  | cleanPath, p :: rest, fs, trace =>
    let trace' := trace ++ [FsOp.glob p]
    match fs.globExpand p with
    | none => isPathAllowedGo cleanPath rest fs trace'
    | some found =>
      if found.any (fun m => Clean m = cleanPath) then (true, trace')
      else isPathAllowedGo cleanPath rest fs trace'

/-- Source: `isPathAllowed` — clean the requested path, expand each glob
pattern against the filesystem, accept on a cleaned-path match. -/
def isPathAllowed (requestedPath : Str) (allowedPatterns : List Str) (fs : LogFS) :
    Bool × List FsOp :=
  isPathAllowedGo (Clean requestedPath) allowedPatterns fs []

/-- Source: `tailFile` — open and stat the file, read all lines below 1 MiB,
otherwise scan backwards from EOF. -/
def tailFile (filePath : Str) (n : Nat) (fs : LogFS) :
    Except Str (List Str) × List FsOp :=
  match fs.readFile filePath with
  | none => (Except.error (str "failed to open file"), [FsOp.openFile filePath])
  | some content =>
    (Except.ok
      (if content.length < 1048576 then readAllLines content n
       else readLastNLines content n),
     [FsOp.openFile filePath])

/-- Source: `FetchLogLines` — path whitelist first (expanding globs against
the filesystem), then the line-count bounds, then the tail read.  The second
component is the trace of filesystem operations performed. -/
def FetchLogLines (logPath : Str) (lines : Int) (allowedPatterns : List Str)
    (fs : LogFS) : Except Str (List Str) × List FsOp :=
  let a := isPathAllowed logPath allowedPatterns fs
  if ¬ a.1 then
    (Except.error (str "log path not in allowed list: " ++ logPath), a.2)
  else if lines ≤ 0 then
    (Except.error (str "lines must be greater than 0"), a.2)
  else if 10000 < lines then
    (Except.error (str "lines cannot exceed 10000"), a.2)
  else
    let t := tailFile logPath lines.toNat fs
    (t.1, a.2 ++ t.2)

/-! ## Telemetry publishing (`client.go` — src/unnamed/part_002) -/

/-- An error returned by one synchronous `js.Publish` attempt.  `isQueue`
records whether it is a queueing ("cannot enqueue") failure, as opposed to
e.g. an acknowledgment timeout; the retry loop never inspects it. -/
structure PubErr where
  isQueue : Bool
  msg : Str
deriving DecidableEq

/-- Source: `PublishTelemetry` — up to three synchronous `js.Publish`
attempts (`attempt k` is the outcome of the `k`-th, `none` on success),
sleeping `retryDelay * attempt` (1 s then 2 s) between attempts, returning
`nil` on the first success and the wrapped last error after three failures.
The result pairs the surfaced error (tagged with its kind) with the total
seconds slept before returning. -/
def PublishTelemetry (subject : Str) (attempt : Nat → Option PubErr) :
    Option (Bool × Str) × Nat :=
  match attempt 1 with
  | none => (none, 0)
  | some _ =>
    match attempt 2 with
    | none => (none, 1)
    | some _ =>
      match attempt 3 with
      | none => (none, 3)
      | some e3 =>
        (some (e3.isQueue,
          str "failed to publish to " ++ subject ++ str " after 3 attempts: " ++ e3.msg), 3)

/-! ## Metrics extraction (`metrics.go` — src/internal/tasks/metrics.go) -/

/-- A decoded Prometheus sample: label pairs and the counter or gauge value. -/
structure Metric where
  labels : List (Str × Str)
  counter : Option ℚ
  gauge : Option ℚ

/-- The metric-family map produced by the decode loop, keyed by name. -/
abbrev Families := Str → Option (List Metric)

/-- Source: `metricsCache` — last counter values and the scrape timestamp
(`none` models the zero `time.Time`). -/
structure MetricsCache where
  lastCPUTotal : ℚ
  lastCPUIdle : ℚ
  lastDiskReadBytes : ℚ
  lastDiskWriteBytes : ℚ
  lastTimestamp : Option ℚ

/-- Source: `SystemMetrics` (numeric fields; the timestamp is set later by
`ScrapeMetrics`). -/
structure SystemMetrics where
  cpuUsagePercent : ℚ
  memoryFreeGB : ℚ
  diskFreePercent : ℚ
  diskReadBytesPerSec : ℚ
  diskWriteBytesPerSec : ℚ

/-- Modelled from the spec: `utils.Round` (package `win-agent/internal/utils`
is not under src/; only its call sites are).  The spec says values are
"rounded to two decimals"; Go `math.Round` rounds half away from zero. -/
def Round (x : ℚ) : ℚ :=
  (if x * 100 < 0 then -(⌊-(x * 100) + 1 / 2⌋ : ℤ) else (⌊x * 100 + 1 / 2⌋ : ℤ)) / 100

/-- Source: `getLabelValue` — first matching label pair, empty otherwise. -/
def getLabelValue (labels : List (Str × Str)) (name : Str) : Str :=
  match labels.find? (fun lp => lp.1 = name) with
  | some lp => lp.2
  | none => []

/-- Source: the summation loop over `windows_cpu_time_total` — all counter
values into the total, the `idle`-mode ones also into the idle sum. -/
def cpuSums (ms : List Metric) : ℚ × ℚ :=
  ms.foldl
    (fun acc m =>
      match m.counter with
      | some v =>
        (acc.1 + v,
         if getLabelValue m.labels (str "mode") = str "idle" then acc.2 + v else acc.2)
      | none => acc)
    (0, 0)

/-- First metric of the family carrying `volume="C:"` and a counter. -/
def findCVolumeCounter (fams : Families) (name : Str) : Option ℚ :=
  match fams name with
  | some ms =>
    match ms.find? (fun m =>
        getLabelValue m.labels (str "volume") = str "C:" ∧ m.counter ≠ none) with
    | some m => some (m.counter.getD 0)
    | none => none
  | none => none

/-- First metric of the family carrying `volume="C:"` and a gauge. -/
def findCVolumeGauge (fams : Families) (name : Str) : Option ℚ :=
  match fams name with
  | some ms =>
    match ms.find? (fun m =>
        getLabelValue m.labels (str "volume") = str "C:" ∧ m.gauge ≠ none) with
    | some m => some (m.gauge.getD 0)
    | none => none
  | none => none

/-- Gauge of the first metric of a family, as the memory extraction reads it. -/
def firstGauge (fams : Families) (name : Str) : Option ℚ :=
  match fams name with
  | some ms =>
    match ms.head? with
    | some m => m.gauge
    | none => none
  | none => none

/-- The value-extraction result: the record, the internal `cpuFound` and
`memoryFound` flags, and the updated cache. -/
structure ParseResult where
  metrics : SystemMetrics
  cpuFound : Bool
  memoryFound : Bool
  cache : MetricsCache

/-- Source: the body of `parsePrometheusMetrics` after the decode loop
(first document of metrics.go, the version cited by the claims).  CPU is
reported only when the cache is non-empty, the summed total and the cached
total are positive, and the total delta is positive; memory prefers
`available_bytes` with a `physical_free_bytes` fallback; disk free percent
needs both gauges for `C:` with positive size; disk I/O rates divide counter
deltas by the elapsed seconds, with a first-pass baseline store.  No value
is range-checked anywhere.  `now` is the scrape time in seconds. -/
def parsePrometheusMetrics (fams : Families) (cache : MetricsCache) (now : ℚ) :
    ParseResult :=
  -- CPU section
  let cpuPart :=
    match fams (str "windows_cpu_time_total") with
    | some ms =>
      let s := cpuSums ms
      let reported :=
        if cache.lastTimestamp ≠ none ∧ s.1 > 0 ∧ cache.lastCPUTotal > 0 then
          let totalDelta := s.1 - cache.lastCPUTotal
          let idleDelta := s.2 - cache.lastCPUIdle
          if totalDelta > 0 then some (Round (100 - idleDelta / totalDelta * 100))
          else none
        else none
      (reported, some s)
    | none => (none, none)
  -- memory section
  let memPrimary := firstGauge fams (str "windows_memory_available_bytes")
  let memVal :=
    match memPrimary with
    | some bytes => some (Round (bytes / 1024 / 1024 / 1024))
    | none =>
      match firstGauge fams (str "windows_memory_physical_free_bytes") with
      | some bytes => some (Round (bytes / 1024 / 1024 / 1024))
      | none => none
  -- disk free section
  let diskFree :=
    match fams (str "windows_logical_disk_free_bytes") with
    | some _ =>
      match findCVolumeGauge fams (str "windows_logical_disk_free_bytes"),
            findCVolumeGauge fams (str "windows_logical_disk_size_bytes") with
      | some freeBytes, some totalBytes =>
        if totalBytes > 0 then some (Round (freeBytes / totalBytes * 100)) else none
      | _, _ => none
    | none => none
  -- disk I/O section
  let dio :=
    match cache.lastTimestamp with
    | some t =>
      let timeDelta := now - t
      if timeDelta > 0 then
        let rd :=
          match findCVolumeCounter fams (str "windows_logical_disk_read_bytes_total") with
          | some currentRead =>
            (if cache.lastDiskReadBytes > 0 then
               Round ((currentRead - cache.lastDiskReadBytes) / timeDelta)
             else 0, currentRead)
          | none => (0, cache.lastDiskReadBytes)
        let wr :=
          match findCVolumeCounter fams (str "windows_logical_disk_write_bytes_total") with
          | some currentWrite =>
            (if cache.lastDiskWriteBytes > 0 then
               Round ((currentWrite - cache.lastDiskWriteBytes) / timeDelta)
             else 0, currentWrite)
          | none => (0, cache.lastDiskWriteBytes)
        ((rd.1, wr.1), (rd.2, wr.2))
      else ((0, 0), (cache.lastDiskReadBytes, cache.lastDiskWriteBytes))
    | none =>
      let rBase :=
        (findCVolumeCounter fams (str "windows_logical_disk_read_bytes_total")).getD
          cache.lastDiskReadBytes
      let wBase :=
        (findCVolumeCounter fams (str "windows_logical_disk_write_bytes_total")).getD
          cache.lastDiskWriteBytes
      ((0, 0), (rBase, wBase))
  { metrics :=
      { cpuUsagePercent := (cpuPart.1).getD 0
        memoryFreeGB := memVal.getD 0
        diskFreePercent := diskFree.getD 0
        diskReadBytesPerSec := dio.1.1
        diskWriteBytesPerSec := dio.1.2 }
    cpuFound := (cpuPart.1).isSome
    memoryFound := memVal.isSome
    cache :=
      { lastCPUTotal := match cpuPart.2 with | some s => s.1 | none => cache.lastCPUTotal
        lastCPUIdle := match cpuPart.2 with | some s => s.2 | none => cache.lastCPUIdle
        lastDiskReadBytes := dio.2.1
        lastDiskWriteBytes := dio.2.2
        lastTimestamp := some now } }

/-- Source: `parsePrometheusMetrics` including the decode loop: a decode
failure is the only error path; successful decoding always yields a record. -/
def parseWithDecode (decoded : Except Str Families) (cache : MetricsCache)
    (now : ℚ) : Except Str ParseResult :=
  match decoded with
  | Except.error e => Except.error (str "failed to decode metric family: " ++ e)
  | Except.ok fams => Except.ok (parsePrometheusMetrics fams cache now)

/-! ## Executor command counters (`executor.go`) -/

/-- Two's-complement wrap of Go `int64` arithmetic. -/
def wrap64 (x : ℤ) : ℤ := (x + 2 ^ 63) % 2 ^ 64 - 2 ^ 63

/-- Source: the command-statistics fields of `ExecutorStats` (the timestamps
are not needed by any claim). -/
structure ExecutorStats where
  commandsProcessed : ℤ
  commandsErrored : ℤ
  lastError : Str
deriving DecidableEq

/-- Source: `NewExecutor` — counters start at zero. -/
def newExecutorStats : ExecutorStats := ⟨0, 0, []⟩

/-- Source: `RecordCommandSuccess` — increment the processed counter. -/
def RecordCommandSuccess (s : ExecutorStats) : ExecutorStats :=
  { s with commandsProcessed := wrap64 (s.commandsProcessed + 1) }

/-- Source: `RecordCommandError` — increment both counters (an errored
command still counts as processed) and store the error. -/
def RecordCommandError (err : Str) (s : ExecutorStats) : ExecutorStats :=
  { commandsProcessed := wrap64 (s.commandsProcessed + 1)
    commandsErrored := wrap64 (s.commandsErrored + 1)
    lastError := err }

/-- A recorded command outcome. -/
inductive CmdOp where
  | success
  | failed (err : Str)

def applyCmdOp (s : ExecutorStats) : CmdOp → ExecutorStats
  | CmdOp.success => RecordCommandSuccess s
  | CmdOp.failed e => RecordCommandError e s

/-- The state reached from a fresh executor after a sequence of recorded
command outcomes; these are the only operations that touch the counters. -/
def runCmdOps (ops : List CmdOp) : ExecutorStats :=
  ops.foldl applyCmdOp newExecutorStats

/-- The number of errored commands in a recorded sequence. -/
def errCount (ops : List CmdOp) : Nat :=
  (ops.filter (fun o => match o with | CmdOp.failed _ => true | CmdOp.success => false)).length

/-! ## Handler panic barrier (`handlers.go`: `handleWithRecovery`) -/

/-- A reply sent on the wire: either an inner handler's own marshalled
response, or an `errorResponse` built from status, error and timestamp. -/
inductive Reply where
  | bytes (payload : Str)
  | errJson (status error timestamp : Str)
deriving DecidableEq

/-- One invocation of an inner handler, observed from outside: the replies
it sends via `msg.Respond`, in order, and whether it then panics (`some
reason`) or returns normally. -/
structure HandlerBehavior where
  replies : List Reply
  panics : Option Str

/-- The synthetic reply of the recovery barrier. -/
def syntheticReply (reason ts : Str) : Reply :=
  Reply.errJson (str "error") (str "Internal error: handler panicked: " ++ reason) ts

/-- Source: `handleWithRecovery` — run the inner handler; when it panics,
recover and send the synthetic error reply in addition to whatever the
inner handler already sent. -/
def handleWithRecovery (ts : Str) (b : HandlerBehavior) : List Reply :=
  b.replies ++
    (match b.panics with
     | some r => [syntheticReply r ts]
     | none => [])

/-- The agent's command handlers send exactly one reply on every normal
completion path, and a panic cuts the handler at an arbitrary point, so the
replies already sent form a prefix of a normal run. -/
def innerWellBehaved (b : HandlerBehavior) : Prop :=
  (b.panics = none → b.replies.length = 1) ∧ b.replies.length ≤ 1

/-! ## Specification-side definitions -/

/-- The amended-claim reading of the exec reply (C3): a zero exit yields a
success reply whose output is stdout with stderr appended under a `STDERR:`
marker when stderr is non-empty and whose `exit_code` field is omitted; a
non-zero exit or timeout is treated as a fault, replied to with only the
error message. -/
def specCombine (stdout stderr : Str) : Str :=
  if stderr = [] then stdout
  else (if stdout = [] then [] else stdout ++ str "\n") ++ str "STDERR:\n" ++ stderr

def execReplySpec (command : Str) (outcome : RunOutcome) (tmo : Str)
    (isValidJSON : Str → Bool) (ts : Str) : CustomExecResponse :=
  match outcome with
  | RunOutcome.exits out errS code =>
    if code = 0 then
      let o := specCombine out errS
      let t := trimSpace o
      ⟨str "success", if command = [] then none else some command,
        some (if t ≠ [] ∧ isValidJSON t then OutputData.raw t else OutputData.jstr o),
        none, none, ts⟩
    else
      ⟨str "error", none, none, none,
        some (str "command exited with code " ++ (toString code).data), ts⟩
  | RunOutcome.startFailure m =>
    ⟨str "error", none, none, none, some (str "failed to execute command: " ++ m), ts⟩
  | RunOutcome.timesOut =>
    ⟨str "error", none, none, none,
      some (str "command execution timeout (" ++ tmo ++ str ")"), ts⟩

/-! ## Concrete fixtures used by closed theorems -/

/-- A filesystem in which `C:\Scripts\evil.ps1` exists as a regular file. -/
def fsEvil : FS := ⟨fun p => if p = str "C:\\Scripts\\evil.ps1" then some false else none⟩

/-- A filesystem oracle that fails every stat. -/
def fsNone : FS := ⟨fun _ => none⟩

/-- A log filesystem on which the pattern `C:\Logs\*.log` expands to nothing
(no matching file exists) and no file is readable. -/
def logFsClean : LogFS :=
  ⟨fun p => if p = str "C:\\Logs\\*.log" then some [] else none, fun _ => none⟩

/-- A log filesystem on which `C:\Logs\*.log` expands to `C:\Logs\app.log`. -/
def logFsApp : LogFS :=
  ⟨fun p => if p = str "C:\\Logs\\*.log" then some [str "C:\\Logs\\app.log"] else none,
   fun _ => none⟩

/-- A metric-family map whose only family is `windows_cpu_time_total`. -/
def cpuOnly (ms : List Metric) : Families :=
  fun name => if name = str "windows_cpu_time_total" then some ms else none

/-- CPU counters summing to total 5, idle 1. -/
def famsLow : Families :=
  cpuOnly [⟨[(str "mode", str "idle")], some 1, none⟩,
           ⟨[(str "mode", str "user")], some 4, none⟩]

/-- A cache from a first scrape that observed no CPU family: the timestamp is
set but the cached CPU total is zero. -/
def cacheZeroTotal : MetricsCache := ⟨0, 0, 0, 0, some 0⟩

/-- CPU counters summing to total 30, idle 10. -/
def famsCpu : Families :=
  cpuOnly [⟨[(str "mode", str "idle")], some 10, none⟩,
           ⟨[(str "mode", str "user")], some 20, none⟩]

/-- A baseline cache: total 20, idle 7, from a previous scrape. -/
def cacheBase : MetricsCache := ⟨20, 7, 0, 0, some 0⟩

/-- CPU counters summing to total 20, idle 5. -/
def fams150 : Families :=
  cpuOnly [⟨[(str "mode", str "idle")], some 5, none⟩,
           ⟨[(str "mode", str "user")], some 15, none⟩]

/-- A baseline cache whose idle counter then decreases: total 10, idle 10. -/
def cache150 : MetricsCache := ⟨10, 10, 0, 0, some 0⟩

/-! # Theorems -/

/-- C1 (the spec claim is right, the code violates it): with scripts
directory `C:\Scripts` containing the regular file `evil.ps1`, the traversal
command `..\..\evil.ps1` is authorized — `isScriptAllowed` validates only the
base name joined to the directory — and `ExecuteCommand` spawns the original
`..\..\evil.ps1` unchanged (`resolveScriptPath` returns non-bare paths as
they are), a path whose canonical form is not within the scripts directory:
it is relative, starts with `..\..`, and the validated path differs from the
executed one.  The claim (and the code's own comment "This prevents path
traversal attacks") says such a command is rejected and never spawned. -/
theorem thm_C1 :
    isCommandAllowed (str "..\\..\\evil.ps1") [] (str "C:\\Scripts") fsEvil = true ∧
    (ExecuteCommand (str "..\\..\\evil.ps1") [] (str "C:\\Scripts") fsEvil
        (RunOutcome.exits [] [] 0) (str "30s")).spawned =
      some (str "..\\..\\evil.ps1") ∧
    Clean (str "..\\..\\evil.ps1") = str "..\\..\\evil.ps1" ∧
    strStartsWith (Clean (str "..\\..\\evil.ps1"))
      (Clean (str "C:\\Scripts") ++ ['\\']) = false ∧
    Clean (str "..\\..\\evil.ps1") ≠ Clean (str "C:\\Scripts") ∧
    Join2 (Clean (str "C:\\Scripts")) (Base (str "..\\..\\evil.ps1")) =
      str "C:\\Scripts\\evil.ps1" := by
  decide

/-- C2 counterexample: the claim's second example is false.  Whitespace
normalization collapses runs of white space but does not touch the spaces
around the pipe inside the whitelist entry, so `"  Get-Process|Sort  "`
normalizes to `"Get-Process|Sort"`, which differs from the normalized entry
`"Get-Process | Sort"`, and the request fails. -/
theorem cex_C2 :
    normalizeWhitespace (str "  Get-Process|Sort  ") = str "Get-Process|Sort" ∧
    normalizeWhitespace (str "Get-Process | Sort") = str "Get-Process | Sort" ∧
    isCommandAllowed (str "  Get-Process|Sort  ") [str "Get-Process | Sort"] []
      fsNone = false := by
  decide

/-- C2 (amended): with no scripts directory configured, the whitelist
authorizes a command exactly when its whitespace normalization equals the
normalization of some entry, case-sensitively; `"Get-Process"` fails against
`["Get-Process | Sort"]`, and so does `"  Get-Process|Sort  "`, while
`"  Get-Process  |  Sort "` (spaces around the pipe) succeeds. -/
theorem thm_C2 :
    (∀ (command : Str) (allowedCommands : List Str) (fs : FS),
      isCommandAllowed command allowedCommands [] fs = true ↔
        ∃ a ∈ allowedCommands,
          normalizeWhitespace command = normalizeWhitespace a) ∧
    isCommandAllowed (str "Get-Process") [str "Get-Process | Sort"] [] fsNone = false ∧
    isCommandAllowed (str "  Get-Process|Sort  ") [str "Get-Process | Sort"] []
      fsNone = false ∧
    isCommandAllowed (str "  Get-Process  |  Sort ") [str "Get-Process | Sort"] []
      fsNone = true := by
  refine ⟨?_, by decide, by decide, by decide⟩
  intro command allowedCommands fs
  simp [isCommandAllowed, List.any_eq_true]

/-- C4 counterexample: an oracle on which every synchronous publish attempt
fails with a non-queueing error (for instance an acknowledgment timeout)
makes `PublishTelemetry` surface that terminal failure to the caller —
wrapped, tagged as non-queueing — after sleeping 3 seconds, refuting both
"returns immediately after enqueue" and "the only error the operation can
return synchronously is a queueing error". -/
theorem cex_C4 :
    PublishTelemetry (str "s") (fun _ => some ⟨false, str "nats: timeout"⟩) =
      (some (false, str "failed to publish to s after 3 attempts: nats: timeout"),
       3) := by
  decide

/-- C4 (amended): `PublishTelemetry` is synchronous with retries: it returns
`nil` exactly when one of its (up to three) `js.Publish` attempts succeeds,
and when all three fail it sleeps 3 seconds in total and returns the third
attempt's error — of whatever kind, acknowledgment failures included —
wrapped in "failed to publish to `subject` after 3 attempts". -/
theorem thm_C4 : ∀ (subject : Str) (attempt : Nat → Option PubErr),
    ((PublishTelemetry subject attempt).1 = none ↔
      attempt 1 = none ∨ attempt 2 = none ∨ attempt 3 = none) ∧
    (∀ e1 e2 e3, attempt 1 = some e1 → attempt 2 = some e2 → attempt 3 = some e3 →
      PublishTelemetry subject attempt =
        (some (e3.isQueue,
           str "failed to publish to " ++ subject ++ str " after 3 attempts: " ++
             e3.msg), 3)) := by
  intro subject attempt
  constructor
  · unfold PublishTelemetry
    rcases h1 : attempt 1 with _ | e1 <;> rcases h2 : attempt 2 with _ | e2 <;>
      rcases h3 : attempt 3 with _ | e3 <;> simp [h1, h2, h3]
  · intro e1 e2 e3 h1 h2 h3
    unfold PublishTelemetry
    rw [h1, h2, h3]

/-- C4 witness: the amended theorem applied to a concrete all-fail oracle. -/
theorem thm_C4_witness :
    PublishTelemetry (str "s") (fun _ => some ⟨true, str "x"⟩) =
      (some (true, str "failed to publish to s after 3 attempts: x"), 3) :=
  (thm_C4 (str "s") (fun _ => some ⟨true, str "x"⟩)).2
    ⟨true, str "x"⟩ ⟨true, str "x"⟩ ⟨true, str "x"⟩ rfl rfl rfl

/-- C8 (the spec claim is right, the code violates it): `FetchLogLines`
validates the path whitelist before the line count, and that check expands
glob patterns against the filesystem.  For `lines = 0` on path
`C:\Logs\app.log` with pattern `C:\Logs\*.log`: on a filesystem where the
glob matches nothing the reply is the path-whitelist error — not the
line-count error the repository's own `TestFetchLogLines` expects — and on a
filesystem where the glob matches the path, the line-count error is reached
only after the glob expansion has touched the filesystem; in both runs the
trace of filesystem operations is non-empty before the failure. -/
theorem thm_C8 :
    FetchLogLines (str "C:\\Logs\\app.log") 0 [str "C:\\Logs\\*.log"] logFsClean =
      (Except.error (str "log path not in allowed list: C:\\Logs\\app.log"),
       [FsOp.glob (str "C:\\Logs\\*.log")]) ∧
    FetchLogLines (str "C:\\Logs\\app.log") 0 [str "C:\\Logs\\*.log"] logFsApp =
      (Except.error (str "lines must be greater than 0"),
       [FsOp.glob (str "C:\\Logs\\*.log")]) ∧
    FetchLogLines (str "C:\\Logs\\app.log") (-1) [str "C:\\Logs\\*.log"] logFsApp =
      (Except.error (str "lines must be greater than 0"),
       [FsOp.glob (str "C:\\Logs\\*.log")]) ∧
    FetchLogLines (str "C:\\Logs\\app.log") 10001 [str "C:\\Logs\\*.log"] logFsApp =
      (Except.error (str "lines cannot exceed 10000"),
       [FsOp.glob (str "C:\\Logs\\*.log")]) :=
  ⟨rfl, rfl, rfl, rfl⟩

/-- C3 counterexample: an authorized command whose child exits with code 2
and stderr `boom` is answered with status `error`, the message `command
exited with code 2`, and nothing else: the reply carries no `exit_code`
field and no `output` field, instead of the claimed
`status error / exit_code 2 / output with STDERR marker` data reply. -/
theorem cex_C3 :
    handleCustomExec (some (str "Get-Process")) [str "Get-Process"] [] fsNone
        (RunOutcome.exits (str "out") (str "boom") 2) (str "30s") (fun _ => false)
        (str "T") =
      ⟨str "error", none, none, none, some (str "command exited with code 2"),
        str "T"⟩ ∧
    (handleCustomExec (some (str "Get-Process")) [str "Get-Process"] [] fsNone
        (RunOutcome.exits (str "out") (str "boom") 2) (str "30s") (fun _ => false)
        (str "T")).exitCode = none ∧
    (handleCustomExec (some (str "Get-Process")) [str "Get-Process"] [] fsNone
        (RunOutcome.exits (str "out") (str "boom") 2) (str "30s") (fun _ => false)
        (str "T")).output = none := by
  exact ⟨rfl, rfl, rfl⟩

/-- C3 (amended): for every authorized exec command, a zero exit yields a
success reply whose output is stdout with stderr appended under a `STDERR:`
marker when stderr is non-empty (forwarded raw when it parses as JSON, as a
JSON string otherwise) and whose `exit_code` field is omitted because
`omitempty` drops the zero value; a non-zero exit is treated as a fault, not
data: the reply is status `error` with message `command exited with code N`
and carries neither `exit_code` nor `output`; a timeout likewise yields only
status `error` with the timeout message, the internal exit code -1 not
surfaced. -/
theorem thm_C3 : ∀ (command : Str) (allowedCommands : List Str) (scriptsDir : Str)
    (fs : FS) (outcome : RunOutcome) (tmo : Str) (jv : Str → Bool) (ts : Str),
    isCommandAllowed command allowedCommands scriptsDir fs = true →
    handleCustomExec (some command) allowedCommands scriptsDir fs outcome tmo jv ts =
      execReplySpec command outcome tmo jv ts := by
  intro command allowedCommands scriptsDir fs outcome tmo jv ts h
  cases outcome with
  | exits out errS code =>
    by_cases hc : code = 0
    · subst hc
      by_cases he : errS = []
      · simp [handleCustomExec, ExecuteCommand, h, executePowerShell, execReplySpec,
          specCombine, he]
      · by_cases ho : out = [] <;>
          simp [handleCustomExec, ExecuteCommand, h, executePowerShell, execReplySpec,
            specCombine, he, ho]
    · by_cases he : errS = [] <;>
        simp [handleCustomExec, ExecuteCommand, h, executePowerShell, execReplySpec,
          specCombine, he, hc]
  | startFailure m =>
    simp [handleCustomExec, ExecuteCommand, h, executePowerShell, execReplySpec]
  | timesOut =>
    simp [handleCustomExec, ExecuteCommand, h, executePowerShell, execReplySpec]

/-- C3 witness: the amended theorem applied to a whitelisted command with a
clean zero-exit run. -/
theorem thm_C3_witness :
    isCommandAllowed (str "Get-Process") [str "Get-Process"] [] fsNone = true ∧
    handleCustomExec (some (str "Get-Process")) [str "Get-Process"] [] fsNone
        (RunOutcome.exits (str "hi") [] 0) (str "30s") (fun _ => false) (str "T") =
      execReplySpec (str "Get-Process") (RunOutcome.exits (str "hi") [] 0)
        (str "30s") (fun _ => false) (str "T") :=
  ⟨by decide, thm_C3 _ _ _ _ _ _ _ _ (by decide)⟩

/-- C9 counterexample: an inner handler that sends its reply and then panics
is well behaved (its replies are a prefix of a normal single-reply run), yet
the wrapped handler emits two replies — the inner one and the synthetic
panic reply — refuting "exactly one reply, even if the inner handler
panics". -/
theorem cex_C9 :
    innerWellBehaved ⟨[Reply.bytes (str "pong")], some (str "nil dereference")⟩ ∧
    (handleWithRecovery (str "T")
        ⟨[Reply.bytes (str "pong")], some (str "nil dereference")⟩).length = 2 ∧
    handleWithRecovery (str "T")
        ⟨[Reply.bytes (str "pong")], some (str "nil dereference")⟩ =
      [Reply.bytes (str "pong"),
       syntheticReply (str "nil dereference") (str "T")] := by
  refine ⟨⟨by simp, by simp⟩, rfl, rfl⟩

/-- C9 (amended): for every well-behaved inner handler, the wrapped handler
emits at least one and at most two replies; it emits exactly the inner
handler's single reply on normal completion, and on a panic the synthetic
`status error / Internal error: handler panicked: reason / timestamp` reply
is always the last reply emitted — the only reply when the panic struck
before the inner handler replied, a second reply otherwise. -/
theorem thm_C9 : ∀ (b : HandlerBehavior) (ts : Str), innerWellBehaved b →
    1 ≤ (handleWithRecovery ts b).length ∧
    (handleWithRecovery ts b).length ≤ 2 ∧
    (b.panics = none →
      handleWithRecovery ts b = b.replies ∧ (handleWithRecovery ts b).length = 1) ∧
    (∀ r, b.panics = some r →
      (handleWithRecovery ts b).getLast? = some (syntheticReply r ts) ∧
      (b.replies = [] → handleWithRecovery ts b = [syntheticReply r ts])) := by
  intro b ts hwb
  obtain ⟨hnorm, hpre⟩ := hwb
  cases hp : b.panics with
  | none =>
    have hlen := hnorm hp
    refine ⟨?_, ?_, fun _ => ⟨?_, ?_⟩, ?_⟩
    · simp [handleWithRecovery, hp, hlen]
    · simp [handleWithRecovery, hp, hlen]
    · simp [handleWithRecovery, hp]
    · simp [handleWithRecovery, hp, hlen]
    · intro r hr; exact Option.noConfusion hr
  | some r0 =>
    refine ⟨?_, ?_, fun hnone => Option.noConfusion hnone, ?_⟩
    · simp [handleWithRecovery, hp]
    · simp only [handleWithRecovery, hp, List.length_append, List.length_cons,
        List.length_nil]
      omega
    · intro r hr
      have hrr : r0 = r := by injection hr
      subst hrr
      constructor
      · simp [handleWithRecovery, hp, List.getLast?_concat]
      · intro hrep; simp [handleWithRecovery, hp, hrep]

/-- C9 witness: the amended theorem applied to a handler that panics before
replying; the caller still receives exactly the synthetic reply. -/
theorem thm_C9_witness :
    1 ≤ (handleWithRecovery (str "T") ⟨[], some (str "boom")⟩).length ∧
    (handleWithRecovery (str "T") ⟨[], some (str "boom")⟩).length ≤ 2 ∧
    ((⟨[], some (str "boom")⟩ : HandlerBehavior).panics = none →
      handleWithRecovery (str "T") ⟨[], some (str "boom")⟩ =
        (⟨[], some (str "boom")⟩ : HandlerBehavior).replies ∧
      (handleWithRecovery (str "T") ⟨[], some (str "boom")⟩).length = 1) ∧
    (∀ r, (⟨[], some (str "boom")⟩ : HandlerBehavior).panics = some r →
      (handleWithRecovery (str "T") ⟨[], some (str "boom")⟩).getLast? =
        some (syntheticReply r (str "T")) ∧
      ((⟨[], some (str "boom")⟩ : HandlerBehavior).replies = [] →
        handleWithRecovery (str "T") ⟨[], some (str "boom")⟩ =
          [syntheticReply r (str "T")])) :=
  thm_C9 ⟨[], some (str "boom")⟩ (str "T") ⟨by simp, by simp⟩

/-- C6 counterexample: on a second pass (the cache timestamp is set) whose
idle counter decreased, the computed CPU usage is 150 — outside [0, 100] —
and the extractor still returns the `SystemMetrics` record carrying it
instead of failing: no validation exists in the code. -/
theorem cex_C6 :
    (parsePrometheusMetrics fams150 cache150 1).metrics.cpuUsagePercent = 150 ∧
    ¬ (parsePrometheusMetrics fams150 cache150 1).metrics.cpuUsagePercent ≤ 100 ∧
    cache150.lastTimestamp ≠ none ∧
    parseWithDecode (Except.ok fams150) cache150 1 =
      Except.ok (parsePrometheusMetrics fams150 cache150 1) := by
  have hcpu : fams150 (str "windows_cpu_time_total") =
      some [⟨[(str "mode", str "idle")], some 5, none⟩,
            ⟨[(str "mode", str "user")], some 15, none⟩] := rfl
  have hne : str "user" ≠ str "idle" := by decide
  have hsums : cpuSums [⟨[(str "mode", str "idle")], some 5, none⟩,
      ⟨[(str "mode", str "user")], some 15, none⟩] = (20, 5) := by
    norm_num [cpuSums, getLabelValue, hne]
  have hval : (parsePrometheusMetrics fams150 cache150 1).metrics.cpuUsagePercent
      = 150 := by
    simp only [parsePrometheusMetrics, hcpu, hsums, cache150]
    norm_num [Round]
    simp
  refine ⟨hval, by rw [hval]; norm_num, by simp [cache150], rfl⟩

/-- C6 (amended): the extractor performs no range validation on any pass:
whenever the Prometheus decode succeeds it returns a `SystemMetrics` record,
whatever the computed values are, and the only failure of
`parsePrometheusMetrics` is a decode failure. -/
theorem thm_C6 : ∀ (fams : Families) (cache : MetricsCache) (now : ℚ),
    parseWithDecode (Except.ok fams) cache now =
      Except.ok (parsePrometheusMetrics fams cache now) ∧
    ∀ e, parseWithDecode (Except.error e) cache now =
      Except.error (str "failed to decode metric family: " ++ e) :=
  fun _ _ _ => ⟨rfl, fun _ => rfl⟩

/-- C5 counterexample: with a cache left by a first scrape that saw no CPU
family (timestamp set, cached total 0) and a second scrape totalling 5
seconds, the total delta is 5 > 0, yet no CPU value is reported: the code
additionally requires the summed total and the cached total to be positive,
which the claim omits. -/
theorem cex_C5 :
    cacheZeroTotal.lastTimestamp ≠ none ∧
    (cpuSums [⟨[(str "mode", str "idle")], some 1, none⟩,
              ⟨[(str "mode", str "user")], some 4, none⟩]).1 -
      cacheZeroTotal.lastCPUTotal = 5 ∧
    (0 : ℚ) < 5 ∧
    (parsePrometheusMetrics famsLow cacheZeroTotal 10).cpuFound = false ∧
    (parsePrometheusMetrics famsLow cacheZeroTotal 10).metrics.cpuUsagePercent
      = 0 := by
  have hcpu : famsLow (str "windows_cpu_time_total") =
      some [⟨[(str "mode", str "idle")], some 1, none⟩,
            ⟨[(str "mode", str "user")], some 4, none⟩] := rfl
  have hne : str "user" ≠ str "idle" := by decide
  have hsums : cpuSums [⟨[(str "mode", str "idle")], some 1, none⟩,
      ⟨[(str "mode", str "user")], some 4, none⟩] = (5, 1) := by
    norm_num [cpuSums, getLabelValue, hne]
  refine ⟨by simp [cacheZeroTotal], ?_, by norm_num, ?_, ?_⟩
  · rw [hsums]; simp [cacheZeroTotal]
  · simp only [parsePrometheusMetrics, hcpu, hsums, cacheZeroTotal]
    norm_num
  · simp only [parsePrometheusMetrics, hcpu, hsums, cacheZeroTotal]
    norm_num

/-- C5 (amended): on a scrape that finds the CPU family, if the cache is
empty the baseline (total, idle, now) is stored and no CPU value is
reported; and when the cache is non-empty, the summed total is positive, the
cached total is positive, and the total delta is positive, the reported
value is `Round (100 * (1 - Δidle / Δtotal))` — so a second scrape with
ΔT_total = 10 s and ΔT_idle = 3 s reports 70. -/
theorem thm_C5 : ∀ (fams : Families) (cache : MetricsCache) (now : ℚ)
    (ms : List Metric), fams (str "windows_cpu_time_total") = some ms →
    (cache.lastTimestamp ≠ none → (cpuSums ms).1 > 0 → cache.lastCPUTotal > 0 →
      (cpuSums ms).1 - cache.lastCPUTotal > 0 →
      (parsePrometheusMetrics fams cache now).cpuFound = true ∧
      (parsePrometheusMetrics fams cache now).metrics.cpuUsagePercent =
        Round (100 * (1 - ((cpuSums ms).2 - cache.lastCPUIdle) /
          ((cpuSums ms).1 - cache.lastCPUTotal)))) ∧
    (cache.lastTimestamp = none →
      (parsePrometheusMetrics fams cache now).cpuFound = false ∧
      (parsePrometheusMetrics fams cache now).cache.lastCPUTotal = (cpuSums ms).1 ∧
      (parsePrometheusMetrics fams cache now).cache.lastCPUIdle = (cpuSums ms).2 ∧
      (parsePrometheusMetrics fams cache now).cache.lastTimestamp = some now) := by
  intro fams cache now ms hms
  constructor
  · intro hts hT hLT hΔ
    have hcond : cache.lastTimestamp ≠ none ∧ (cpuSums ms).1 > 0 ∧
        cache.lastCPUTotal > 0 := ⟨hts, hT, hLT⟩
    unfold parsePrometheusMetrics
    rw [hms]
    simp only [if_pos hcond, if_pos hΔ, Option.isSome_some, Option.getD_some]
    refine ⟨by trivial, ?_⟩
    congr 1
    field_simp
    ring
  · intro hts
    unfold parsePrometheusMetrics
    rw [hms]
    simp [hts]

/-- C5 witness: the amended theorem at a concrete second scrape with
ΔT_total = 10 and ΔT_idle = 3, reporting exactly 70. -/
theorem thm_C5_witness :
    (parsePrometheusMetrics famsCpu cacheBase 1).cpuFound = true ∧
    (parsePrometheusMetrics famsCpu cacheBase 1).metrics.cpuUsagePercent = 70 := by
  have hne : str "user" ≠ str "idle" := by decide
  have hsums : cpuSums [⟨[(str "mode", str "idle")], some 10, none⟩,
      ⟨[(str "mode", str "user")], some 20, none⟩] = (30, 10) := by
    norm_num [cpuSums, getLabelValue, hne]
  have h := (thm_C5 famsCpu cacheBase 1
      [⟨[(str "mode", str "idle")], some 10, none⟩,
       ⟨[(str "mode", str "user")], some 20, none⟩] rfl).1
      (by simp [cacheBase]) (by rw [hsums]; norm_num)
      (by norm_num [cacheBase]) (by rw [hsums]; norm_num [cacheBase])
  refine ⟨h.1, ?_⟩
  rw [h.2, hsums]
  simp only [cacheBase]
  norm_num [Round]

/-! ## Helper lemmas for the log-tail claim -/

theorem splitBy_ne_nil (p : Char → Bool) (l : Str) : splitBy p l ≠ [] := by
  cases l with
  | nil => simp [splitBy]
  | cons c rest =>
    rw [splitBy]
    by_cases h : p c = true
    · simp [h]
    · simp only [h, if_false]
      rcases hsp : splitBy p rest with _ | ⟨s, ss⟩ <;> simp

theorem splitBy_append_sep (p : Char → Bool) (c : Char) (hc : p c = true) :
    ∀ X Y : Str, splitBy p (X ++ c :: Y) = splitBy p X ++ splitBy p Y := by
  intro X
  induction X with
  | nil => intro Y; simp [splitBy, hc]
  | cons d X' ih =>
    intro Y
    by_cases hd : p d = true
    · simp [splitBy, hd, ih]
    · rw [List.cons_append, splitBy, splitBy]
      simp only [hd, if_false]
      rw [ih]
      rcases hsp : splitBy p X' with _ | ⟨s, ss⟩
      · exact absurd hsp (splitBy_ne_nil p X')
      · simp

theorem splitBy_of_none (p : Char → Bool) : ∀ X : Str, (∀ c ∈ X, p c = false) →
    splitBy p X = [X] := by
  intro X
  induction X with
  | nil => intro _; rfl
  | cons c X' ih =>
    intro h
    have hc : p c = false := h c (by simp)
    rw [splitBy]
    simp only [hc, if_false]
    rw [ih (fun d hd => h d (by simp [hd]))]
    simp

theorem lastN_of_le (n : Nat) (xs : List Str) (h : xs.length ≤ n) :
    lastN n xs = xs := by
  unfold lastN
  rw [Nat.sub_eq_zero_of_le h, List.drop_zero]

theorem lastN_append (n : Nat) (xs ys : List Str) (h : ys.length = n) :
    lastN n (xs ++ ys) = ys := by
  unfold lastN
  rw [List.length_append, h, Nat.add_sub_cancel, List.drop_left]

theorem collectAll_append_lines : ∀ (rev acc : Str) (lines : List Str),
    collectAll rev acc lines = collectAll rev acc [] ++ lines := by
  intro rev
  induction rev with
  | nil => intro acc lines; rcases acc with _ | ⟨a, as⟩ <;> simp [collectAll]
  | cons c rest ih =>
    intro acc lines
    rw [collectAll, collectAll]
    by_cases hnl : c = '\n'
    · simp only [if_pos hnl]
      by_cases hacc : acc = []
      · simp only [if_pos hacc]
        exact ih [] lines
      · simp only [if_neg hacc]
        rw [ih [] (acc :: lines), ih [] [acc], List.append_assoc,
          List.singleton_append]
    · by_cases hcr : c = '\r'
      · simp only [if_neg hnl, if_pos hcr]
        exact ih acc lines
      · simp only [if_neg hnl, if_neg hcr]
        exact ih (c :: acc) lines

theorem collectAll_eq : ∀ (rev acc : Str) (lines : List Str),
    (∀ c ∈ acc, c ≠ '\n') → (∀ c ∈ acc, c ≠ '\r') →
    collectAll rev acc lines = nonEmptyLines (rev.reverse ++ acc) ++ lines := by
  intro rev
  induction rev with
  | nil =>
    intro acc lines hn hr
    have hfil : acc.filter notCR = acc :=
      List.filter_eq_self.mpr (fun a ha => by simp [notCR, hr a ha])
    have hsp : splitBy isNL acc = [acc] :=
      splitBy_of_none isNL acc (fun c hc => by simp [isNL, hn c hc])
    rw [collectAll]
    simp only [List.reverse_nil, List.nil_append, nonEmptyLines, hfil, hsp]
    by_cases hacc : acc = []
    · rw [if_pos hacc]
      subst hacc
      simp
    · rw [if_neg hacc]
      simp [hacc]
  | cons c rest ih =>
    intro acc lines hn hr
    have hfil : acc.filter notCR = acc :=
      List.filter_eq_self.mpr (fun a ha => by simp [notCR, hr a ha])
    have hsp : splitBy isNL acc = [acc] :=
      splitBy_of_none isNL acc (fun d hd => by simp [isNL, hn d hd])
    rw [collectAll]
    by_cases hnl : c = '\n'
    · rw [if_pos hnl]
      have hrw : nonEmptyLines ((c :: rest).reverse ++ acc) =
          nonEmptyLines rest.reverse ++ (if acc = [] then [] else [acc]) := by
        unfold nonEmptyLines
        rw [hnl, List.reverse_cons, List.append_assoc, List.singleton_append,
          List.filter_append, List.filter_cons_of_pos (by rfl), hfil,
          splitBy_append_sep isNL '\n' (by rfl), hsp, List.filter_append]
        rcases acc with _ | ⟨a, as⟩ <;> simp
      rw [hrw]
      by_cases hacc : acc = []
      · rw [if_pos hacc, if_pos hacc, ih [] lines (by simp) (by simp)]
        simp
      · rw [if_neg hacc, if_neg hacc, ih [] (acc :: lines) (by simp) (by simp)]
        simp
    · rw [if_neg hnl]
      by_cases hcr : c = '\r'
      · rw [if_pos hcr]
        have hrw : nonEmptyLines ((c :: rest).reverse ++ acc) =
            nonEmptyLines (rest.reverse ++ acc) := by
          unfold nonEmptyLines
          rw [hcr, List.reverse_cons, List.append_assoc, List.singleton_append,
            List.filter_append, List.filter_cons_of_neg (by simp [notCR]),
            ← List.filter_append]
        rw [hrw]
        exact ih acc lines hn hr
      · rw [if_neg hcr]
        rw [ih (c :: acc) lines
          (fun d hd => by
            rcases List.mem_cons.mp hd with hd | hd
            · simpa [hd] using hnl
            · exact hn d hd)
          (fun d hd => by
            rcases List.mem_cons.mp hd with hd | hd
            · simpa [hd] using hcr
            · exact hr d hd)]
        rw [List.reverse_cons, List.append_assoc, List.singleton_append]

theorem collectBack_eq : ∀ (rev : Str) (n : Nat) (acc : Str) (lines : List Str),
    lines.length < n →
    collectBack rev n acc lines = lastN n (collectAll rev acc lines) := by
  intro rev
  induction rev with
  | nil =>
    intro n acc lines hlen
    rw [collectBack, collectAll]
    by_cases hacc : acc = []
    · simp only [if_pos hacc]
      rw [lastN_of_le n lines (by omega)]
    · simp only [if_neg hacc]
      rw [lastN_of_le n _ (by simp only [List.length_cons]; omega)]
  | cons c rest ih =>
    intro n acc lines hlen
    rw [collectBack, collectAll]
    by_cases hnl : c = '\n'
    · simp only [if_pos hnl]
      by_cases hacc : acc = []
      · simp only [if_pos hacc]
        exact ih n [] lines hlen
      · simp only [if_neg hacc]
        by_cases hstop : n ≤ ((acc :: lines) : List Str).length
        · have hlen' : ((acc :: lines) : List Str).length = n := by
            simp only [List.length_cons] at hstop ⊢
            omega
          rw [if_pos hstop, collectAll_append_lines, lastN_append n _ _ hlen']
        · rw [if_neg hstop]
          exact ih n [] (acc :: lines)
            (by simp only [List.length_cons] at hstop ⊢; omega)
    · simp only [if_neg hnl]
      by_cases hcr : c = '\r'
      · simp only [if_pos hcr]
        exact ih n acc lines hlen
      · simp only [if_neg hcr]
        exact ih n (c :: acc) lines hlen

theorem readAllLines_eq (content : Str) (n : Nat) :
    readAllLines content n = lastN n (linesGo content) := by
  unfold readAllLines
  by_cases h : (linesGo content).length ≤ n
  · rw [if_pos h, lastN_of_le n _ h]
  · rw [if_neg h]
    rfl

theorem readLastNLines_eq (content : Str) (n : Nat) (h : 1 ≤ n) :
    readLastNLines content n = lastN n (nonEmptyLines content) := by
  unfold readLastNLines
  rw [if_neg (by omega : ¬ n = 0)]
  rw [collectBack_eq content.reverse n [] [] (by simpa using h)]
  rw [collectAll_eq content.reverse [] [] (by simp) (by simp)]
  simp

/-- C7 counterexample: the file `a\n\nb\n` has the three lines
`a`, `` (empty), `b`; its final two lines are `` and `b`, but the
backward-scanning large-file path returns `a` and `b` — consecutive newlines
never close a line, so empty lines are silently dropped. -/
theorem cex_C7 :
    readLastNLines (str "a\n\nb\n") 2 = [str "a", str "b"] ∧
    linesGo (str "a\n\nb\n") = [str "a", [], str "b"] ∧
    lastN 2 (linesGo (str "a\n\nb\n")) = [[], str "b"] ∧
    readLastNLines (str "a\n\nb\n") 2 ≠ lastN 2 (linesGo (str "a\n\nb\n")) := by
  decide

/-- C7 (amended): for every file content and every `k` in [1, 10000], the
small-file path returns exactly the final `min(k, n)` of the file's `n`
scanner lines in forward order; the large-file backward path instead returns
the final `min(k, m)` of the file's `m` non-empty lines (newline-separated
segments with carriage returns removed and empty segments dropped), in
forward order. -/
theorem thm_C7 : ∀ (content : Str) (k : Nat), 1 ≤ k → k ≤ 10000 →
    readAllLines content k = lastN k (linesGo content) ∧
    readLastNLines content k = lastN k (nonEmptyLines content) :=
  fun content k h1 _ => ⟨readAllLines_eq content k, readLastNLines_eq content k h1⟩

/-- C7 witness: the amended theorem at a three-line file with `k = 2`. -/
theorem thm_C7_witness :
    readAllLines (str "L1\nL2\nL3") 2 = lastN 2 (linesGo (str "L1\nL2\nL3")) ∧
    readLastNLines (str "L1\nL2\nL3") 2 =
      lastN 2 (nonEmptyLines (str "L1\nL2\nL3")) :=
  thm_C7 (str "L1\nL2\nL3") 2 (by decide) (by decide)

/-! ## Helper lemmas for the executor-counter claim -/

theorem pow63_val : (2 : ℤ) ^ 63 = 9223372036854775808 := by norm_num

theorem pow64_val : (2 : ℤ) ^ 64 = 18446744073709551616 := by norm_num

theorem wrap64_eq_self (x : ℤ) (h1 : -(2 ^ 63) ≤ x) (h2 : x < 2 ^ 63) :
    wrap64 x = x := by
  unfold wrap64
  rw [pow63_val, pow64_val]
  rw [pow63_val] at h1 h2
  omega

theorem wrap64_succ (x : ℤ) : wrap64 (wrap64 x + 1) = wrap64 (x + 1) := by
  unfold wrap64
  rw [pow63_val, pow64_val]
  omega

theorem wrap64_zero : wrap64 0 = 0 := by
  unfold wrap64
  rw [pow63_val, pow64_val]
  omega

theorem fold_success_wrap : ∀ (k : Nat) (t : ℤ) (s : ExecutorStats),
    s.commandsProcessed = wrap64 t →
    ((List.replicate k CmdOp.success).foldl applyCmdOp s).commandsProcessed =
      wrap64 (t + k) ∧
    ((List.replicate k CmdOp.success).foldl applyCmdOp s).commandsErrored =
      s.commandsErrored := by
  intro k
  induction k with
  | zero =>
    intro t s h
    simp only [List.replicate, List.foldl_nil, Nat.cast_zero, add_zero]
    exact ⟨h, trivial⟩
  | succ n ih =>
    intro t s h
    rw [List.replicate_succ, List.foldl_cons]
    have h' : (applyCmdOp s CmdOp.success).commandsProcessed = wrap64 (t + 1) := by
      simp only [applyCmdOp, RecordCommandSuccess, h, wrap64_succ]
    have he : (applyCmdOp s CmdOp.success).commandsErrored = s.commandsErrored := rfl
    obtain ⟨hp, hee⟩ := ih (t + 1) (applyCmdOp s CmdOp.success) h'
    refine ⟨?_, by rw [hee, he]⟩
    rw [hp]
    congr 1
    push_cast
    ring

theorem runFrom_spec : ∀ (ops : List CmdOp) (s : ExecutorStats),
    0 ≤ s.commandsErrored → s.commandsErrored ≤ s.commandsProcessed →
    s.commandsProcessed + ops.length < 2 ^ 63 →
    (ops.foldl applyCmdOp s).commandsProcessed = s.commandsProcessed + ops.length ∧
    (ops.foldl applyCmdOp s).commandsErrored = s.commandsErrored + errCount ops := by
  intro ops
  induction ops with
  | nil =>
    intro s h0 hle hb
    simp [errCount]
  | cons op rest ih =>
    intro s h0 hle hb
    simp only [List.length_cons] at hb
    push_cast at hb
    have hrest : (0 : ℤ) ≤ rest.length := Int.natCast_nonneg _
    have hppos : (0 : ℤ) ≤ s.commandsProcessed := le_trans h0 hle
    have hbig : (0 : ℤ) < 2 ^ 63 := by rw [pow63_val]; omega
    rw [List.foldl_cons]
    cases op with
    | success =>
      have hproc : (applyCmdOp s CmdOp.success).commandsProcessed =
          s.commandsProcessed + 1 := by
        simp only [applyCmdOp, RecordCommandSuccess]
        exact wrap64_eq_self _ (by omega) (by omega)
      have herr : (applyCmdOp s CmdOp.success).commandsErrored =
          s.commandsErrored := rfl
      obtain ⟨hp, he⟩ := ih (applyCmdOp s CmdOp.success)
        (by rw [herr]; exact h0)
        (by rw [herr, hproc]; omega)
        (by rw [hproc]; omega)
      refine ⟨?_, ?_⟩
      · rw [hp, hproc]
        simp only [List.length_cons]
        push_cast
        ring
      · rw [he, herr]
        simp [errCount]
    | failed e =>
      have hproc : (applyCmdOp s (CmdOp.failed e)).commandsProcessed =
          s.commandsProcessed + 1 := by
        simp only [applyCmdOp, RecordCommandError]
        exact wrap64_eq_self _ (by omega) (by omega)
      have herr : (applyCmdOp s (CmdOp.failed e)).commandsErrored =
          s.commandsErrored + 1 := by
        simp only [applyCmdOp, RecordCommandError]
        exact wrap64_eq_self _ (by omega) (by omega)
      obtain ⟨hp, he⟩ := ih (applyCmdOp s (CmdOp.failed e))
        (by rw [herr]; omega)
        (by rw [herr, hproc]; omega)
        (by rw [hproc]; omega)
      refine ⟨?_, ?_⟩
      · rw [hp, hproc]
        simp only [List.length_cons]
        push_cast
        ring
      · rw [he, herr]
        have : errCount (CmdOp.failed e :: rest) = errCount rest + 1 := by
          simp [errCount, List.filter]
        rw [this]
        push_cast
        ring

/-- C10 counterexample: Go `int64` counters wrap.  After 2^63 recorded
successes, `commandsProcessed` has wrapped to -2^63; one further
`RecordCommandError` leaves a reachable state with `commandsErrored = 1`
greater than `commandsProcessed = 1 - 2^63`, refuting the invariant as
universally stated (and the increment of 2^63-th success decreased the
processed counter). -/
theorem cex_C10 :
    (runCmdOps (List.replicate (2 ^ 63) CmdOp.success ++
        [CmdOp.failed (str "boom")])).commandsErrored = 1 ∧
    (runCmdOps (List.replicate (2 ^ 63) CmdOp.success ++
        [CmdOp.failed (str "boom")])).commandsProcessed = 1 - 2 ^ 63 ∧
    ¬ ((runCmdOps (List.replicate (2 ^ 63) CmdOp.success ++
        [CmdOp.failed (str "boom")])).commandsErrored ≤
      (runCmdOps (List.replicate (2 ^ 63) CmdOp.success ++
        [CmdOp.failed (str "boom")])).commandsProcessed) := by
  have h0 : newExecutorStats.commandsProcessed = wrap64 0 := by
    rw [wrap64_zero]
    rfl
  obtain ⟨hp, he⟩ := fold_success_wrap (2 ^ 63) 0 newExecutorStats h0
  have hrun : runCmdOps (List.replicate (2 ^ 63) CmdOp.success ++
      [CmdOp.failed (str "boom")]) =
      RecordCommandError (str "boom")
        ((List.replicate (2 ^ 63) CmdOp.success).foldl applyCmdOp
          newExecutorStats) := by
    unfold runCmdOps
    rw [List.foldl_append]
    rfl
  have herr : (runCmdOps (List.replicate (2 ^ 63) CmdOp.success ++
      [CmdOp.failed (str "boom")])).commandsErrored = 1 := by
    rw [hrun]
    simp only [RecordCommandError, he]
    show wrap64 (newExecutorStats.commandsErrored + 1) = 1
    rw [show newExecutorStats.commandsErrored + 1 = 1 from by
      simp [newExecutorStats]]
    exact wrap64_eq_self 1 (by rw [pow63_val]; omega) (by rw [pow63_val]; omega)
  have hproc : (runCmdOps (List.replicate (2 ^ 63) CmdOp.success ++
      [CmdOp.failed (str "boom")])).commandsProcessed = 1 - 2 ^ 63 := by
    rw [hrun]
    simp only [RecordCommandError, hp]
    rw [wrap64_succ]
    have hcast : (0 : ℤ) + ((2 ^ 63 : ℕ) : ℤ) + 1 = 2 ^ 63 + 1 := by
      norm_num
    rw [hcast]
    unfold wrap64
    rw [pow63_val, pow64_val]
    omega
  refine ⟨herr, hproc, ?_⟩
  rw [herr, hproc, pow63_val]
  omega

/-- C10 (amended): as long as fewer than 2^63 commands have been recorded
(no `int64` overflow), every reachable state satisfies
`commandsErrored ≤ commandsProcessed`: from a fresh executor, `n` recorded
commands leave `commandsProcessed = n` and `commandsErrored` equal to the
number of errored commands among them; and away from the overflow boundary,
`RecordCommandSuccess` increments `commandsProcessed` by exactly one leaving
`commandsErrored` unchanged, while `RecordCommandError` increments both by
one (an errored command still counts as processed) and stores the error. -/
theorem thm_C10 : ∀ (ops : List CmdOp) (s : ExecutorStats) (e : Str),
    ops.length < 2 ^ 63 →
    -(2 ^ 63) ≤ s.commandsProcessed → s.commandsProcessed + 1 < 2 ^ 63 →
    -(2 ^ 63) ≤ s.commandsErrored → s.commandsErrored + 1 < 2 ^ 63 →
    (runCmdOps ops).commandsProcessed = ops.length ∧
    (runCmdOps ops).commandsErrored = errCount ops ∧
    (runCmdOps ops).commandsErrored ≤ (runCmdOps ops).commandsProcessed ∧
    (RecordCommandSuccess s).commandsProcessed = s.commandsProcessed + 1 ∧
    (RecordCommandSuccess s).commandsErrored = s.commandsErrored ∧
    (RecordCommandError e s).commandsProcessed = s.commandsProcessed + 1 ∧
    (RecordCommandError e s).commandsErrored = s.commandsErrored + 1 ∧
    (RecordCommandError e s).lastError = e := by
  intro ops s e hops hs1 hs2 hs3 hs4
  have hb : newExecutorStats.commandsProcessed + ops.length < 2 ^ 63 := by
    show (0 : ℤ) + ops.length < 2 ^ 63
    rw [pow63_val]
    have : (ops.length : ℤ) < ((2 ^ 63 : ℕ) : ℤ) := by exact_mod_cast hops
    push_cast at this
    omega
  obtain ⟨hp, he⟩ := runFrom_spec ops newExecutorStats (by norm_num [newExecutorStats])
    (by norm_num [newExecutorStats]) hb
  have hcount : (errCount ops : ℤ) ≤ (ops.length : ℤ) := by
    exact_mod_cast List.length_filter_le _ ops
  refine ⟨?_, ?_, ?_, ?_, rfl, ?_, ?_, rfl⟩
  · rw [runCmdOps, hp]
    norm_num [newExecutorStats]
  · rw [runCmdOps, he]
    norm_num [newExecutorStats]
  · rw [runCmdOps, hp, he]
    norm_num [newExecutorStats]
    exact_mod_cast hcount
  · exact wrap64_eq_self _ (by omega) hs2
  · exact wrap64_eq_self _ (by omega) hs2
  · exact wrap64_eq_self _ (by omega) hs4

/-- C10 witness: the amended theorem at a two-command trace and at a small
in-range state. -/
theorem thm_C10_witness :
    (runCmdOps [CmdOp.success, CmdOp.failed (str "x")]).commandsProcessed =
      ([CmdOp.success, CmdOp.failed (str "x")] : List CmdOp).length ∧
    (runCmdOps [CmdOp.success, CmdOp.failed (str "x")]).commandsErrored =
      errCount [CmdOp.success, CmdOp.failed (str "x")] ∧
    (runCmdOps [CmdOp.success, CmdOp.failed (str "x")]).commandsErrored ≤
      (runCmdOps [CmdOp.success, CmdOp.failed (str "x")]).commandsProcessed ∧
    (RecordCommandSuccess ⟨5, 2, str "p"⟩).commandsProcessed =
      (⟨5, 2, str "p"⟩ : ExecutorStats).commandsProcessed + 1 ∧
    (RecordCommandSuccess ⟨5, 2, str "p"⟩).commandsErrored =
      (⟨5, 2, str "p"⟩ : ExecutorStats).commandsErrored ∧
    (RecordCommandError (str "q") ⟨5, 2, str "p"⟩).commandsProcessed =
      (⟨5, 2, str "p"⟩ : ExecutorStats).commandsProcessed + 1 ∧
    (RecordCommandError (str "q") ⟨5, 2, str "p"⟩).commandsErrored =
      (⟨5, 2, str "p"⟩ : ExecutorStats).commandsErrored + 1 ∧
    (RecordCommandError (str "q") ⟨5, 2, str "p"⟩).lastError = str "q" :=
  thm_C10 [CmdOp.success, CmdOp.failed (str "x")] ⟨5, 2, str "p"⟩ (str "q")
    (by norm_num) (by norm_num) (by norm_num) (by norm_num) (by norm_num)

end WinAgent
